import Mathlib

/-!
Verification of the markdown documentation generator (`doc/md_docs.go`).

The command tree itself is owned by the external CLI framework (cobra); a
command node is therefore embedded as a record of the attributes the
generator reads from it: name, short/long descriptions, use line, example
text, the two pre-formatted flag blocks produced by the framework's flag
printer (`NonInheritedFlags().PrintDefaults()` / `InheritedFlags()`,
empty when the corresponding set has no available flags), the runnable,
auto-gen-tag, availability and help-topic booleans, the ordered list of
children, the chain of ancestors (nearest parent first) and the declared
related commands.  `InitDefaultHelpCmd` / `InitDefaultHelpFlag` mutate the
node before extraction; for the output-producing functions nodes are
modelled post-initialisation, while the renderers' complete mutation
footprint on the input command (the initializations, the in-place children
sort and the suppression flag) is modelled separately on `CmdMutState` by
`genMarkdownCustomState` / `genMarkdownCustomTemplateState`.

Go strings are modelled as `String` (a wrapped `List Char`); the byte-level
operations of the source (`strings.Count`, `regexp.Split`, indexing) are
transliterated over `List Char`.  A Go runtime fault (index out of range)
is modelled as `Option.none`.
-/

/-- Attributes of a direct child node that `generateCmdTemplate` reads:
`Name()`, `Short`, `IsAvailableCommand()` and
`IsAdditionalHelpTopicCommand()`.  The `available` flag is the result of
cobra's `IsAvailableCommand` (false for hidden or non-runnable placeholder
commands). -/
structure ChildInfo where
  name : String
  short : String
  available : Bool
  helpTopic : Bool
deriving DecidableEq, Repr

/-- Attributes of an ancestor node read by the generator: its `Name()`
(used to build command paths), `Short` (for the parent link) and
`DisableAutoGenTag` (read by `VisitParents`). -/
structure Ancestor where
  name : String
  short : String
  disableAutoGenTag : Bool
deriving DecidableEq, Repr

/-- Attributes of a command returned by `RelatedCommands()`: its full
command path, short description and visibility flags. -/
structure RelatedInfo where
  path : String
  short : String
  available : Bool
  helpTopic : Bool
deriving DecidableEq, Repr

/-- The attributes of one command node that the generator reads.
`flagsText` is the text printed by `cmd.NonInheritedFlags().PrintDefaults()`
(empty when `HasAvailableFlags()` is false, exactly as in the source where
`flagString` is only assigned under that guard); `parentFlagsText` likewise
for `InheritedFlags()`. -/
structure CmdMeta where
  name : String
  short : String
  long : String
  useLine : String
  exampleStr : String
  flagsText : String
  parentFlagsText : String
  runnable : Bool
  disableAutoGenTag : Bool
  available : Bool
  helpTopic : Bool
  related : List RelatedInfo
deriving DecidableEq, Repr

/-- A command node in context: its own attributes, its ancestor chain
(nearest parent first, empty for the root) and its direct children. -/
structure CmdCtx where
  node : CmdMeta
  ancestors : List Ancestor
  children : List ChildInfo
deriving DecidableEq, Repr

/-- The record built by `generateCmdTemplate` (struct `CmdTemplate` in the
source).  `Example` is renamed `exampleStr` because `example` is reserved
in Lean. -/
structure CmdTemplate where
  name : String
  short : String
  long : String
  useLine : String
  exampleStr : String
  flags : String
  flagSlice : List String
  parentFlags : String
  parentLink : String
  childrenLinks : List String
  relatedLinks : List String
  commandLink : String
  headerScale : Nat
deriving DecidableEq, Repr

/-- Result of running the external template engine (`template.Execute`) on
a `CmdTemplate`: the text it wrote to the buffer before returning, and the
error it returned (`none` on success).  On failure the engine may already
have written partial output. -/
structure TemplateResult where
  out : String
  err : Option String
deriving DecidableEq, Repr

/-- Result of `GenMarkdownCustomTemplate`: the chunks written to the
writer (in order), the lines written to the log, the final value of the
command's `DisableAutoGenTag` field, and the error returned to the caller
(excluding external I/O errors of the final `buf.WriteTo`, which are
outside the model). -/
structure TplRender where
  segs : List String
  logs : List String
  tag : Bool
  err : Option String
deriving DecidableEq, Repr

/-- `strings.Replace(s, " ", "_", -1)`: every space becomes an underscore. -/
def replaceSpaces (s : String) : String :=
  String.mk (s.data.map fun c => if c = ' ' then '_' else c)

/-- `cmd.CommandPath()`: the space-joined names from the root down to the
node, reconstructed from the ancestor chain (nearest parent first). -/
def commandPathOf (ancestors : List Ancestor) (selfName : String) : String :=
  String.intercalate (" ") ((ancestors.reverse.map Ancestor.name) ++ [selfName])

/-- `strings.Count(s, "--")`: number of non-overlapping occurrences of the
long-flag marker, scanning greedily from the left. -/
def countDashDash : List Char → Nat
  | [] => 0
  | c :: rest =>
    if c = '-' then
      match rest with
      | [] => 0
      | d :: rest' => if d = '-' then countDashDash rest' + 1 else countDashDash (d :: rest')
    else countDashDash rest

/-- Matcher for the suffix ` *-` of the split pattern: consumes a maximal
run of spaces followed by one dash and returns the remainder.  Go's
regexp is leftmost-first, but since the only characters the greedy ` *`
can give back are spaces (which can never satisfy the following `-`),
maximal-munch without backtracking is exact. -/
def trySpacesDash : List Char → Option (List Char)
  | ' ' :: rest => trySpacesDash rest
  | '-' :: rest => some rest
  | _ => none

/-- Core of `regexp.MustCompile("\n *-").Split(s, n)` for `n ≥ 1`:
scan left to right accumulating the current piece (in reverse); at each
match of the pattern, if cuts remain in the budget (`n - 1` in total),
close the piece (the matched text, including the leading dash of the next
flag, is consumed and dropped) and continue after the match; the final
piece is whatever remains.  `fuel` is a structural-recursion bound; every
step consumes at least one character, so `fuel = s.length` suffices. -/
def splitGoAux : Nat → Nat → List Char → List Char → List (List Char)
  | _, _, acc, [] => [acc.reverse]
  | 0, _, acc, l => [acc.reverse ++ l]
  | fuel+1, budget, acc, c :: rest =>
    if c = '\n' then
      match budget, trySpacesDash rest with
      | b+1, some rest' => acc.reverse :: splitGoAux fuel b [] rest'
      | _, _ => splitGoAux fuel budget (c :: acc) rest
    else splitGoAux fuel budget (c :: acc) rest

/-- `flagSplitter.Split(flagString, n)` with the count semantics of Go's
`Regexp.Split`: a count of 0 yields nil (the empty list); an empty input
with the non-empty pattern yields one empty piece; otherwise at most
`n - 1` cuts are made at matches of `"\n *-"` and the remainder is the
last piece. -/
def goSplitFlag (s : List Char) (n : Nat) : List (List Char) :=
  if n = 0 then []
  else if s = [] then [[]]
  else splitGoAux s.length (n - 1) [] s

/-- The re-prefixing loop of `generateCmdTemplate`: the split clipped the
leading dash of every piece after the first, so it is added back
(`flagSlice[i] = "-" + flag` for `i > 0`). -/
def reAddDash : List (List Char) → List (List Char)
  | [] => []
  | p :: rest => p :: rest.map (fun q => '-' :: q)

/-- The `flagSlice` derivation of `generateCmdTemplate` (lines 75-86 of
the source): count the long-flag markers, split with that count as bound,
inspect `flagSlice[len(flagSlice)-1]` (when the split returned no pieces
this indexes an empty slice, a runtime fault, modelled as `none`), drop a
trailing empty piece, and re-prefix the clipped dashes. -/
def flagSliceOfText (s : List Char) : Option (List (List Char)) :=
  let numberOfFlags := countDashDash s
  let fs := goSplitFlag s numberOfFlags
  match fs.getLast? with
  | none => none
  | some last =>
    let fs' := if last = [] then fs.dropLast else fs
    some (reAddDash fs')

/-- The `headerScale` computation of `generateCmdTemplate`: 0 without a
parent, otherwise 1 plus one per further ancestor above the parent. -/
def headerScaleOf : List Ancestor → Nat
  | [] => 0
  | _ :: rest => rest.foldl (fun h _ => h + 1) 1

/-- The parent link of `generateCmdTemplate`: empty without a parent,
otherwise one rendered line for the parent command. -/
def parentLinkOf (ancestors : List Ancestor) (lh : String → String) : String :=
  match ancestors with
  | [] => ""
  | p :: rest =>
    let pname := commandPathOf rest p.name
    "* [" ++ pname ++ "](" ++ lh (replaceSpaces (pname ++ (".md"))) ++ ")\t - " ++ p.short ++ "\n"

/-- One rendered child link line (the body of the children loop). -/
def childLinkLine (name : String) (lh : String → String) (child : ChildInfo) : String :=
  let cname := name ++ (" ") ++ child.name
  "* [" ++ cname ++ "](" ++ lh (replaceSpaces (cname ++ (".md"))) ++ ")\t - " ++ child.short ++ "\n"

/-- The comparison used by `sort.Sort(byName(children))`: children ordered
by `Name()` (Go string order, lexicographic). -/
def nameLe (a b : ChildInfo) : Bool :=
  decide (a.name ≤ b.name)

/-- One step of the sort modelling `sort.Sort(byName(children))`: insert
into an already sorted list. -/
def insertByName (c : ChildInfo) : List ChildInfo → List ChildInfo
  | [] => [c]
  | d :: rest => if nameLe c d then c :: d :: rest else d :: insertByName c rest

/-- The sort applied by `generateCmdTemplate` to the children (the
external framework's `sort.Sort` with the by-name comparator, modelled as
insertion sort: any sort by name yields the same order on distinct
names). -/
def sortByName : List ChildInfo → List ChildInfo
  | [] => []
  | c :: rest => insertByName c (sortByName rest)

/-- The children-links loop of `generateCmdTemplate`: sort by name, skip
children that are not available commands or are additional help topics,
and render one link line per remaining child, in order. -/
def childrenLinksOf (name : String) (children : List ChildInfo) (lh : String → String) : List String :=
  (((sortByName children).filter fun c => c.available && !c.helpTopic).map
    (childLinkLine name lh))

/-- The related-links loop of `generateCmdTemplate`: same visibility
filter, declared order preserved (no sort). -/
def relatedLinksOf (rels : List RelatedInfo) (lh : String → String) : List String :=
  ((rels.filter fun r => r.available && !r.helpTopic).map fun r =>
    "* [" ++ r.path ++ "](" ++ lh (replaceSpaces (r.path ++ (".md"))) ++ ")\t - " ++ r.short ++ "\n")

/-- `generateCmdTemplate` (lines 48-174 of the source).  Returns `none`
when the `flagSlice` derivation faults. -/
def generateCmdTemplate (ctx : CmdCtx) (lh : String → String) : Option CmdTemplate :=
  let name := commandPathOf ctx.ancestors ctx.node.name
  let short := ctx.node.short
  let long := if ctx.node.long.length = 0 then short else ctx.node.long
  let useLine := ctx.node.useLine
  let exampleStr := if ctx.node.exampleStr.length > 0 then ctx.node.exampleStr else ""
  let flagString := ctx.node.flagsText
  match flagSliceOfText flagString.data with
  | none => none
  | some pieces =>
    some
      { name := name
        short := short
        long := long
        useLine := useLine
        exampleStr := exampleStr
        flags := flagString
        flagSlice := pieces.map String.mk
        parentFlags := ctx.node.parentFlagsText
        parentLink := parentLinkOf ctx.ancestors lh
        childrenLinks := childrenLinksOf name ctx.children lh
        relatedLinks := relatedLinksOf ctx.node.related lh
        commandLink := lh (replaceSpaces (name ++ (".md")))
        headerScale := headerScaleOf ctx.ancestors }

/-- The date-stamped trailer appended by `GenMarkdownCustom` when the
auto-gen tag is not suppressed.  `today` stands for
`time.Now().Format("2-Jan-2006")`, a date string, passed as a parameter
since the clock is external. -/
def footerLine (today : String) : String :=
  "###### Auto generated by spf13/cobra on " ++ today ++ "\n"

/-- The `cmd.VisitParents` callback of `GenMarkdownCustom`: for every
ancestor whose `DisableAutoGenTag` is set, the command's own flag is
overwritten with that (true) value.  Returns the final flag value. -/
def visitParentsTag (ancestors : List Ancestor) (tag : Bool) : Bool :=
  ancestors.foldl (fun acc a => if a.disableAutoGenTag then a.disableAutoGenTag else acc) tag

/-- `printOptions` (lines 176-185): appends the own-flags block and the
inherited-flags block to the buffer, each only when non-empty.  The Go
function always returns a nil error, so only the buffer is modelled. -/
def printOptions (buf : List String) (t : CmdTemplate) : List String :=
  let buf1 :=
    if t.flags.length > 0 then
      buf ++ ["### Options\n\n```\n" ++ t.flags ++ "```\n\n"]
    else buf
  if t.parentFlags.length > 0 then
    buf1 ++ ["### Options inherited from parent commands\n\n```\n" ++ t.parentFlags ++ "```\n\n"]
  else buf1

/-- `GenMarkdownCustom` (lines 193-240), output view.  The buffer is
modelled as the ordered list of chunks passed to `buf.WriteString`; the
result pairs it with the final value of the command's `DisableAutoGenTag`
field (mutated via `VisitParents`).  The input `CmdCtx` is the node as it
stands after the line 194-195 initializations; the function's complete
mutation footprint on the command — those initializations, the in-place
children sort of line 117 and the suppression flag — is modelled by
`genMarkdownCustomState`.  `none` models the runtime fault of the
`flagSlice` derivation. -/
def GenMarkdownCustom (ctx : CmdCtx) (lh : String → String) (today : String) :
    Option (List String × Bool) :=
  match generateCmdTemplate ctx lh with
  | none => none
  | some t =>
    let buf : List String := []
    let buf := buf ++ ["## " ++ t.name ++ "\n\n"]
    let buf := buf ++ [t.short ++ "\n\n"]
    let buf := buf ++ ["### Synopsis\n\n"]
    let buf := buf ++ [t.long ++ "\n\n"]
    let buf :=
      if ctx.node.runnable && t.useLine.length > 0 then
        buf ++ ["```\n" ++ t.useLine ++ "\n```\n\n"]
      else buf
    let buf :=
      if t.exampleStr.length > 0 then
        buf ++ ["### Examples\n\n"] ++ ["```\n" ++ t.exampleStr ++ "\n```\n\n"]
      else buf
    let buf := printOptions buf t
    let tag := ctx.node.disableAutoGenTag
    let pair :=
      if t.parentLink.length > 0 || t.childrenLinks.length > 0 then
        let buf2 := buf ++ ["### SEE ALSO\n\n"]
        let pair2 :=
          if t.parentLink.length > 0 then
            (buf2 ++ [t.parentLink], visitParentsTag ctx.ancestors tag)
          else (buf2, tag)
        (pair2.1 ++ t.childrenLinks ++ ["\n"], pair2.2)
      else (buf, tag)
    let buf := pair.1
    let tag := pair.2
    let buf := if !tag then buf ++ [footerLine today] else buf
    some (buf, tag)

/-- `writeToTemplate` (lines 301-307): runs the template engine, appends
whatever output it produced (partial on failure), writes a log line when
the engine returned an error, and returns a nil error regardless. -/
def writeToTemplate (t : CmdTemplate) (tpl : CmdTemplate → TemplateResult)
    (buf : List String) : List String × List String × Option String :=
  let r := tpl t
  let logs :=
    match r.err with
    | some e => ["executing template: " ++ e]
    | none => []
  (buf ++ [r.out], logs, none)

/-- `GenMarkdownCustomTemplate` (lines 242-258), output view: extract the
record, set `cmd.DisableAutoGenTag` to true, run the template (its
returned error is discarded by the caller as in the source), and append
the footer only if the tag is unset, which it never is at that point.  As
with `GenMarkdownCustom`, the input `CmdCtx` is the node after the line
243-244 initializations; the function's complete mutation footprint on
the command is modelled by `genMarkdownCustomTemplateState`. -/
def GenMarkdownCustomTemplate (ctx : CmdCtx) (lh : String → String)
    (tpl : CmdTemplate → TemplateResult) (today : String) : Option TplRender :=
  match generateCmdTemplate ctx lh with
  | none => none
  | some t =>
    let tag := true
    let w := writeToTemplate t tpl []
    let buf := w.1
    let logs := w.2.1
    let buf := if !tag then buf ++ [footerLine today] else buf
    some { segs := buf, logs := logs, tag := tag, err := none }

/-- A command tree: one node's attributes plus its subtrees, the input of
`GenMarkdownTreeCustom`. -/
inductive CmdTree where
  | node : CmdMeta → List CmdTree → CmdTree

/-- Attributes of a tree node. -/
def CmdTree.info : CmdTree → CmdMeta
  | .node d _ => d

/-- The `ChildInfo` view of a node, as its parent's extraction sees it. -/
def childInfoOf (d : CmdMeta) : ChildInfo :=
  { name := d.name, short := d.short, available := d.available, helpTopic := d.helpTopic }

/-- The `Ancestor` view of a node, as its descendants see it. -/
def ancestorOf (d : CmdMeta) : Ancestor :=
  { name := d.name, short := d.short, disableAutoGenTag := d.disableAutoGenTag }

/-- The rendering context of a tree node given its ancestor chain. -/
def treeCtx (anc : List Ancestor) (d : CmdMeta) (cs : List CmdTree) : CmdCtx :=
  { node := d, ancestors := anc, children := cs.map fun c => childInfoOf (CmdTree.info c) }

/-- One file written by the tree walk. -/
structure FileWrite where
  path : String
  content : String
deriving DecidableEq, Repr

/-- `filepath.Join(dir, base)` for an ordinary directory path (the
path-cleaning of `filepath.Join` is omitted: no empty segments, `.` or
`..` occur in the generator's inputs). -/
def goFilepathJoin (dir base : String) : String :=
  if dir.length = 0 then base else dir ++ "/" ++ base

/-- The children loop shared by the tree walk and its expected-paths
mirror: visit each child that is an available, non-help-topic command (in
order), concatenating the per-subtree results, and propagate a failure. -/
def optFold {α : Type} (g : CmdTree → Option (List α)) : List CmdTree → Option (List α)
  | [] => some []
  | c :: rest =>
    match optFold g rest with
    | none => none
    | some ws =>
      if (CmdTree.info c).available && !(CmdTree.info c).helpTopic then
        match g c with
        | none => none
        | some cws => some (cws ++ ws)
      else some ws

/-- `GenMarkdownTreeCustom` (lines 274-299): recurse into every child
that is an available command and not an additional help topic (children
before the node itself), then write the node's own file, named by its
command path with spaces replaced by underscores plus `.md`, containing
the file-prepender output followed by the fixed-layout markdown.  `fuel`
bounds the recursion depth (any value at least the tree height behaves
identically); `none` models a faulting render.  File-system errors are
external and not modelled. -/
def genTreeFuel : Nat → List Ancestor → String → (String → String) → (String → String) →
    String → CmdTree → Option (List FileWrite)
  | 0, _, _, _, _, _, _ => none
  | fuel+1, anc, dir, fp, lh, today, .node d cs =>
    let childAnc := ancestorOf d :: anc
    match optFold (fun c => genTreeFuel fuel childAnc dir fp lh today c) cs with
    | none => none
    | some childWs =>
      match GenMarkdownCustom (treeCtx anc d cs) lh today with
      | none => none
      | some r =>
        let basename := replaceSpaces (commandPathOf anc d.name) ++ (".md")
        let filename := goFilepathJoin dir basename
        some (childWs ++ [{ path := filename, content := fp filename ++ String.join r.1 }])

/-- Effective auto-gen-tag suppression of a node: its own flag or any
ancestor's flag (the net effect of the `VisitParents` inheritance in
`GenMarkdownCustom`). -/
def effectiveTag (ctx : CmdCtx) : Bool :=
  ctx.node.disableAutoGenTag || ctx.ancestors.any (·.disableAutoGenTag)

/-- Modelled from the spec: the fixed-layout section sequence of §4.2 —
heading with name, short description, Synopsis heading plus long
description, fenced usage block only when runnable with non-empty use
line, fenced example block only when the example is non-empty, own-flags
block only when non-empty, inherited-flags block only when non-empty, a
SEE ALSO section with the parent link followed by every child link only
when one of them is non-empty, and the footer only when the tag is not
suppressed for this node. -/
def renderFixedBody (t : CmdTemplate) (runnable : Bool) : List String :=
  ["## " ++ t.name ++ "\n\n", t.short ++ "\n\n", "### Synopsis\n\n", t.long ++ "\n\n"]
  ++ (if runnable && t.useLine.length > 0 then ["```\n" ++ t.useLine ++ "\n```\n\n"] else [])
  ++ (if t.exampleStr.length > 0 then
        ["### Examples\n\n", "```\n" ++ t.exampleStr ++ "\n```\n\n"]
      else [])
  ++ (if t.flags.length > 0 then ["### Options\n\n```\n" ++ t.flags ++ "```\n\n"] else [])
  ++ (if t.parentFlags.length > 0 then
        ["### Options inherited from parent commands\n\n```\n" ++ t.parentFlags ++ "```\n\n"]
      else [])
  ++ (if t.parentLink.length > 0 || t.childrenLinks.length > 0 then
        ["### SEE ALSO\n\n"]
        ++ (if t.parentLink.length > 0 then [t.parentLink] else [])
        ++ t.childrenLinks ++ ["\n"]
      else [])

/-- Modelled from the spec, continued: the full fixed layout is the body
followed by the footer, the latter only when the tag is not suppressed for
this node. -/
def renderFixedSegs (t : CmdTemplate) (runnable : Bool) (suppressed : Bool)
    (today : String) : List String :=
  renderFixedBody t runnable
  ++ (if suppressed then [] else [footerLine today])

/-- Modelled from the spec (amended claim for tree materialization): the
file names the walk is expected to produce, in order — for each subtree,
the paths of the visible children's subtrees (children before the node
itself), then the node's own path, the root unconditionally; a child is
visited only when available and not a help topic.  Mirrors the fuel
discipline of `genTreeFuel` so the two walks can be compared at equal
fuel. -/
def expectedTreePaths : Nat → List Ancestor → String → CmdTree → Option (List String)
  | 0, _, _, _ => none
  | fuel+1, anc, dir, .node d cs =>
    let childAnc := ancestorOf d :: anc
    match optFold (fun c => expectedTreePaths fuel childAnc dir c) cs with
    | none => none
    | some childPs =>
      some (childPs ++ [goFilepathJoin dir (replaceSpaces (commandPathOf anc d.name) ++ (".md"))])

/-- Executable check that a chunk of flag text is one well-formed entry of
the flag printer's fixed column format: a non-empty indent of spaces, a
dash, a single-line body ending in the entry's only newline, and exactly
one occurrence of the long-flag marker `--`. -/
def isFlagEntryB (e : List Char) : Bool :=
  let ind := e.takeWhile (· = ' ')
  let rest := e.dropWhile (· = ' ')
  (decide (ind ≠ [])) &&
  (match rest with
   | c :: tail =>
     (decide (c = '-')) &&
     (match tail.getLast? with
      | some d => (decide (d = '\n')) && (decide ('\n' ∉ tail.dropLast))
      | none => false)
   | [] => false) &&
  (decide (countDashDash e = 1))

def flagsHelp : String := "  -h, --help   help for root\n"

def metaW : CmdMeta :=
  { name := "root", short := "Root short", long := "Root long",
    useLine := "root [flags]", exampleStr := "", flagsText := flagsHelp,
    parentFlagsText := "", runnable := true, disableAutoGenTag := false,
    available := true, helpTopic := false, related := [] }

def ctxW : CmdCtx := { node := metaW, ancestors := [], children := [] }

def ctxSuppressedParent : CmdCtx :=
  { node := metaW,
    ancestors := [{ name := "top", short := "Top short", disableAutoGenTag := true }],
    children := [] }

def tW : CmdTemplate :=
  { name := "root", short := "Root short", long := "Root long",
    useLine := "root [flags]", exampleStr := "", flags := flagsHelp,
    flagSlice := [flagsHelp], parentFlags := "", parentLink := "",
    childrenLinks := [], relatedLinks := [], commandLink := "root.md",
    headerScale := 0 }

def tplFailW : CmdTemplate → TemplateResult :=
  fun _ => { out := ("PARTIAL"), err := some ("boom") }

def rFailW : TplRender :=
  { segs := [("PARTIAL")], logs := [("executing template: boom")],
    tag := true, err := none }

def ctxDepth2 : CmdCtx :=
  { node := metaW,
    ancestors := [{ name := "mid", short := "Mid short", disableAutoGenTag := false },
                  { name := "top", short := "Top short", disableAutoGenTag := false }],
    children := [] }

def metaNoMarker : CmdMeta := { metaW with flagsText := ("no long-flag marker here\n") }

def ctxNoMarker : CmdCtx := { node := metaNoMarker, ancestors := [], children := [] }

/-- One well-formed entry of the flag printer's fixed column format, as a
proposition: non-empty all-space indent, a dash, a single-line body whose
only newline is terminal. -/
def IsFlagEntryP (e : List Char) : Prop :=
  ∃ ind midE, e = ind ++ '-' :: (midE ++ ['\n']) ∧ ind ≠ [] ∧
    (∀ c ∈ ind, c = ' ') ∧ '\n' ∉ midE

def entryBool : List Char := ("  -b, --boolone   bool help\n").data

def entryHelp : List Char := ("  -h, --help   help for echo\n").data

def metaTwoFlags : CmdMeta :=
  { metaW with flagsText := ("  -b, --boolone   bool help\n  -h, --help   help for echo\n") }

def ctxTwoFlags : CmdCtx := { node := metaTwoFlags, ancestors := [], children := [] }

def metaZeroFlags : CmdMeta := { metaW with flagsText := ("") }

def ctxZeroFlags : CmdCtx := { node := metaZeroFlags, ancestors := [], children := [] }

def doMeta : CmdMeta := { metaW with name := "do", short := "Do short" }

def treeDo : CmdTree := .node metaW [.node doMeta []]

def leafMeta : CmdMeta := { metaW with name := "leaf", short := "Leaf short" }

def hiddenMeta : CmdMeta := { metaW with name := "sub", available := false }

def treeHiddenMid : CmdTree := .node metaW [.node hiddenMeta [.node leafMeta []]]

/-- The mutable fields of the input command that the two renderers write:
the suppression flag, the live children slice (`cmd.Commands()` returns
the command's own slice, so the line 117 `sort.Sort` reorders it in
place), whether a `help` flag is defined on the command's own flag set,
and whether the default help subcommand has been added.  All changes to
this state persist on the command after a render returns. -/
structure CmdMutState where
  disableAutoGenTag : Bool
  children : List ChildInfo
  helpFlagDefined : Bool
  helpCommandAdded : Bool
deriving DecidableEq, Repr

/-- The default `help` subcommand that `InitDefaultHelpCmd` adds: a real,
runnable command (available, not an additional help topic). -/
def helpChildInfo : ChildInfo :=
  { name := "help", short := "Help about any command",
    available := true, helpTopic := false }

/-- Modelled from the spec: `cmd.InitDefaultHelpCmd()` is this
repository's command code outside `src/` — when the command has
subcommands and the default help command was not added before, it appends
the default `help` subcommand to the command's live children slice;
otherwise it leaves the command unchanged. -/
def initDefaultHelpCmd (st : CmdMutState) : CmdMutState :=
  if st.children = [] then st
  else if st.helpCommandAdded then st
  else { st with helpCommandAdded := true, children := st.children ++ [helpChildInfo] }

/-- Modelled from the spec: `cmd.InitDefaultHelpFlag()` is this
repository's command code outside `src/` — it defines the `--help` flag
on the command's own flag set when no `help` flag exists yet; otherwise
it leaves the command unchanged. -/
def initDefaultHelpFlag (st : CmdMutState) : CmdMutState :=
  if st.helpFlagDefined then st else { st with helpFlagDefined := true }

/-- The complete effect of `GenMarkdownCustom` on the input command's
mutable state: the initializations of lines 194-195, the in-place
`sort.Sort(byName(children))` of line 117 run by `generateCmdTemplate` on
the live slice, and the `VisitParents` suppression inheritance of lines
222-226 (a no-op for a node without a parent, as in the source where that
branch is guarded by a non-empty parent link).  This describes a completed
render; on the fault path of the `flagSlice` derivation the source aborts
after the initializations but before the sort. -/
def genMarkdownCustomState (st : CmdMutState) (ancestors : List Ancestor) : CmdMutState :=
  let st1 := initDefaultHelpFlag (initDefaultHelpCmd st)
  let st2 := { st1 with children := sortByName st1.children }
  { st2 with disableAutoGenTag := visitParentsTag ancestors st2.disableAutoGenTag }

/-- The complete effect of `GenMarkdownCustomTemplate` on the input
command's mutable state: the initializations of lines 243-244, the
in-place children sort inside `generateCmdTemplate` (line 248), and the
unconditional `cmd.DisableAutoGenTag = true` of line 250. -/
def genMarkdownCustomTemplateState (st : CmdMutState) : CmdMutState :=
  let st1 := initDefaultHelpFlag (initDefaultHelpCmd st)
  let st2 := { st1 with children := sortByName st1.children }
  { st2 with disableAutoGenTag := true }

def childAlpha : ChildInfo :=
  { name := "alpha", short := "Alpha short", available := true, helpTopic := false }

def childZulu : ChildInfo :=
  { name := "zulu", short := "Zulu short", available := true, helpTopic := false }

def stPlain : CmdMutState :=
  { disableAutoGenTag := false, children := [childZulu, childAlpha],
    helpFlagDefined := false, helpCommandAdded := false }

-- sanity checks on the split heuristic (cf. the echo command's flag text)
example :
    flagSliceOfText (("  -b, --boolone          help message for flag boolone (default true)\n  -h, --help             help for echo\n").data)
      = some [("  -b, --boolone          help message for flag boolone (default true)").data,
              ("-h, --help             help for echo\n").data] := by decide

example : flagSliceOfText ([]) = none := by decide

example : flagSliceOfText (("no marker here\n").data) = none := by decide

example : headerScaleOf [] = 0 := by decide

example : isFlagEntryB (("  -h, --help   help for echo\n").data) = true := by decide

example : isFlagEntryB (("      --config string   config file\n").data) = true := by decide

example : isFlagEntryB (("--help\n").data) = false := by decide

-- ### basic string bridging lemmas

theorem strData_append (s t : String) : (s ++ t).data = s.data ++ t.data := by
  cases s; cases t; rfl

theorem strExt {s t : String} (h : s.data = t.data) : s = t := by
  cases s; cases t; exact congrArg String.mk h

theorem strLength_data (s : String) : s.length = s.data.length := rfl

theorem strLength_append (s t : String) : (s ++ t).length = s.length + t.length := by
  rw [strLength_data, strLength_data, strLength_data, strData_append, List.length_append]

theorem strLength_pos_of_cons {s : String} {c : Char} {l : List Char}
    (h : s.data = c :: l) : 0 < s.length := by
  simp [strLength_data, h]

theorem visitParentsTag_eq (anc : List Ancestor) (tag : Bool) :
    visitParentsTag anc tag = (tag || anc.any (·.disableAutoGenTag)) := by
  induction anc generalizing tag with
  | nil => simp [visitParentsTag]
  | cons a rest ih =>
    show visitParentsTag rest (if a.disableAutoGenTag then a.disableAutoGenTag else tag) = _
    cases ha : a.disableAutoGenTag <;> cases tag <;> simp [ih, ha]

theorem parentLinkOf_length_pos (p : Ancestor) (rest : List Ancestor) (lh : String → String) :
    0 < (parentLinkOf (p :: rest) lh).length := by
  have h3 : ("* [").length = 3 := rfl
  simp only [parentLinkOf, strLength_append]
  omega

theorem generateCmdTemplate_fields {ctx : CmdCtx} {lh : String → String} {t : CmdTemplate}
    (h : generateCmdTemplate ctx lh = some t) :
    t.parentLink = parentLinkOf ctx.ancestors lh ∧
    t.childrenLinks = childrenLinksOf (commandPathOf ctx.ancestors ctx.node.name) ctx.children lh ∧
    t.headerScale = headerScaleOf ctx.ancestors ∧
    t.useLine = ctx.node.useLine ∧
    t.flags = ctx.node.flagsText := by
  simp only [generateCmdTemplate] at h
  cases hf : flagSliceOfText ctx.node.flagsText.data with
  | none => rw [hf] at h; exact absurd h (by simp)
  | some ps =>
    rw [hf] at h
    have ht := Option.some.inj h
    subst ht
    exact ⟨rfl, rfl, rfl, rfl, rfl⟩

set_option maxHeartbeats 1000000 in
theorem genMarkdownCustom_eq (ctx : CmdCtx) (lh : String → String) (today : String) :
    GenMarkdownCustom ctx lh today =
      (generateCmdTemplate ctx lh).map
        (fun t => (renderFixedSegs t ctx.node.runnable (effectiveTag ctx) today,
                   effectiveTag ctx)) := by
  cases hg : generateCmdTemplate ctx lh with
  | none => simp [GenMarkdownCustom, hg]
  | some t =>
    have hpl : t.parentLink = parentLinkOf ctx.ancestors lh :=
      (generateCmdTemplate_fields hg).1
    simp only [GenMarkdownCustom, hg, Option.map]
    clear hg
    cases hanc : ctx.ancestors with
    | nil =>
      have hpl0 : t.parentLink.length = 0 := by rw [hpl, hanc]; rfl
      have heff : effectiveTag ctx = ctx.node.disableAutoGenTag := by
        simp [effectiveTag, hanc]
      rw [heff]
      cases horig : ctx.node.disableAutoGenTag <;>
        by_cases h1 : ctx.node.runnable = true <;>
        by_cases h1b : t.useLine.length > 0 <;>
        by_cases h2 : t.exampleStr.length > 0 <;>
        by_cases h3 : t.flags.length > 0 <;>
        by_cases h4 : t.parentFlags.length > 0 <;>
        by_cases h5 : t.childrenLinks.length > 0 <;>
        simp [renderFixedSegs, renderFixedBody, printOptions, h1, h1b, h2, h3, h4, h5, hpl0, horig]
    | cons p rest =>
      have hplpos : t.parentLink.length > 0 := by
        rw [hpl, hanc]; exact parentLinkOf_length_pos p rest lh
      have heff : effectiveTag ctx =
          visitParentsTag ctx.ancestors ctx.node.disableAutoGenTag := by
        rw [visitParentsTag_eq]; rfl
      rw [heff, hanc]
      cases htag : visitParentsTag (p :: rest) ctx.node.disableAutoGenTag <;>
        by_cases h1 : ctx.node.runnable = true <;>
        by_cases h1b : t.useLine.length > 0 <;>
        by_cases h2 : t.exampleStr.length > 0 <;>
        by_cases h3 : t.flags.length > 0 <;>
        by_cases h4 : t.parentFlags.length > 0 <;>
        simp [renderFixedSegs, renderFixedBody, printOptions, h1, h1b, h2, h3, h4, hplpos, htag]

theorem mem_of_getLast?_eq {l : List Char} {a : Char} (h : l.getLast? = some a) : a ∈ l := by
  cases hl : l with
  | nil => subst hl; simp at h
  | cons x xs =>
    subst hl
    have hne : x :: xs ≠ [] := by simp
    rw [List.getLast?_eq_getLast _ hne] at h
    have hm := List.getLast_mem hne
    rwa [Option.some.inj h] at hm

theorem footerLine_data (today : String) :
    (footerLine today).data =
      ("###### Auto generated by spf13/cobra on ").data ++ today.data ++ ['\n'] := by
  simp [footerLine, strData_append]

theorem footerLine_data_cons (today : String) :
    (footerLine today).data =
      '#' :: (("##### Auto generated by spf13/cobra on ").data ++ today.data ++ ['\n']) := by
  rw [footerLine_data]
  have h : ("###### Auto generated by spf13/cobra on ").data
      = '#' :: ("##### Auto generated by spf13/cobra on ").data := by decide
  rw [h]
  simp

theorem ne_footerLine_of_head {today s : String} {c : Char} {l : List Char}
    (hc : c ≠ '#') (h : s.data = c :: l) : s ≠ footerLine today := by
  intro he
  rw [he, footerLine_data_cons] at h
  exact hc (List.cons.inj h).1.symm

theorem ne_footerLine_empty (today : String) : ("" : String) ≠ footerLine today := by
  intro he
  have h := congrArg String.data he
  rw [footerLine_data_cons] at h
  exact absurd h (by simp [show ("" : String).data = [] from rfl])

theorem ne_footerLine_nn {today s : String} (hnl : '\n' ∉ today.data) {y : List Char}
    (h : s.data = y ++ ['\n', '\n']) : s ≠ footerLine today := by
  intro he
  rw [he, footerLine_data] at h
  have e1 : ("###### Auto generated by spf13/cobra on ").data ++ today.data ++ ['\n']
      = (("###### Auto generated by spf13/cobra on ").data ++ today.data) ++ ['\n'] := by
    simp
  have e2 : y ++ ['\n', '\n'] = (y ++ ['\n']) ++ ['\n'] := by simp
  rw [e1, e2] at h
  have h2 : ("###### Auto generated by spf13/cobra on ").data ++ today.data = y ++ ['\n'] := by
    have hd := congrArg List.dropLast h
    rwa [List.dropLast_concat, List.dropLast_concat] at hd
  have h3 : (("###### Auto generated by spf13/cobra on ").data ++ today.data).getLast?
      = some '\n' := by
    rw [h2]; exact List.getLast?_concat y
  cases htd : today.data with
  | nil =>
    rw [htd] at h3
    simp at h3
  | cons a as =>
    rw [htd, List.getLast?_append] at h3
    have hsome : (a :: as).getLast?.isSome = true := by
      rw [List.getLast?_isSome]; simp
    cases hx : (a :: as).getLast? with
    | none => rw [hx] at hsome; simp at hsome
    | some b =>
      rw [hx] at h3
      simp at h3
      have hb : b ∈ today.data := by rw [htd]; exact mem_of_getLast?_eq hx
      rw [h3] at hb
      exact hnl hb

theorem mem_ite_nil {α : Type} {a : α} {C : Prop} [Decidable C] {l : List α}
    (h : a ∈ if C then l else []) : a ∈ l := by
  by_cases hc : C
  · rwa [if_pos hc] at h
  · rw [if_neg hc] at h; exact absurd h (List.not_mem_nil a)

theorem data_app_nn (a : String) {b : String} {y : List Char}
    (hb : b.data = y ++ ['\n', '\n']) :
    (a ++ b).data = (a.data ++ y) ++ ['\n', '\n'] := by
  rw [strData_append, hb]; simp

theorem footer_notin_renderFixedBody {today : String} (hnl : '\n' ∉ today.data)
    {t : CmdTemplate} {runnable : Bool}
    (hpl : t.parentLink = ("") ∨ ∃ x, t.parentLink.data = '*' :: x)
    (hcl : ∀ s ∈ t.childrenLinks, ∃ x, s.data = '*' :: x) :
    footerLine today ∉ renderFixedBody t runnable := by
  intro hmem
  have hnn : ("\n\n" : String).data = [] ++ ['\n', '\n'] := by decide
  simp only [renderFixedBody, List.mem_append] at hmem
  rcases hmem with ((((hm | hm) | hm) | hm) | hm) | hm
  · simp only [List.mem_cons, List.not_mem_nil, or_false] at hm
    rcases hm with h | h | h | h
    · exact ne_footerLine_nn hnl (data_app_nn ("## " ++ t.name) hnn) h.symm
    · exact ne_footerLine_nn hnl (data_app_nn t.short hnn) h.symm
    · exact ne_footerLine_nn hnl
        (show ("### Synopsis\n\n" : String).data = ("### Synopsis").data ++ ['\n', '\n'] by decide)
        h.symm
    · exact ne_footerLine_nn hnl (data_app_nn t.long hnn) h.symm
  · have h := mem_ite_nil hm
    simp only [List.mem_singleton] at h
    exact ne_footerLine_nn hnl
      (data_app_nn ("```\n" ++ t.useLine)
        (show ("\n```\n\n" : String).data = ['\n', '`', '`', '`'] ++ ['\n', '\n'] by decide))
      h.symm
  · have h := mem_ite_nil hm
    simp only [List.mem_cons, List.not_mem_nil, or_false] at h
    rcases h with h | h
    · exact ne_footerLine_nn hnl
        (show ("### Examples\n\n" : String).data = ("### Examples").data ++ ['\n', '\n'] by decide)
        h.symm
    · exact ne_footerLine_nn hnl
        (data_app_nn ("```\n" ++ t.exampleStr)
          (show ("\n```\n\n" : String).data = ['\n', '`', '`', '`'] ++ ['\n', '\n'] by decide))
        h.symm
  · have h := mem_ite_nil hm
    simp only [List.mem_singleton] at h
    exact ne_footerLine_nn hnl
      (data_app_nn ("### Options\n\n```\n" ++ t.flags)
        (show ("```\n\n" : String).data = ['`', '`', '`'] ++ ['\n', '\n'] by decide))
      h.symm
  · have h := mem_ite_nil hm
    simp only [List.mem_singleton] at h
    exact ne_footerLine_nn hnl
      (data_app_nn ("### Options inherited from parent commands\n\n```\n" ++ t.parentFlags)
        (show ("```\n\n" : String).data = ['`', '`', '`'] ++ ['\n', '\n'] by decide))
      h.symm
  · have h := mem_ite_nil hm
    simp only [List.mem_append, List.mem_cons, List.not_mem_nil, or_false,
      List.mem_singleton] at h
    rcases h with ((h | h) | h) | h
    · exact ne_footerLine_nn hnl
        (show ("### SEE ALSO\n\n" : String).data = ("### SEE ALSO").data ++ ['\n', '\n'] by decide)
        h.symm
    · have h2 := mem_ite_nil h
      simp only [List.mem_singleton] at h2
      rcases hpl with hpe | ⟨x, hx⟩
      · rw [hpe] at h2
        exact ne_footerLine_empty today h2.symm
      · exact ne_footerLine_of_head (by decide) hx h2.symm
    · obtain ⟨x, hx⟩ := hcl _ h
      exact ne_footerLine_of_head (by decide) hx rfl
    · exact ne_footerLine_of_head (by decide)
        (show ("\n" : String).data = '\n' :: [] by decide) h.symm

theorem data_head_star {a : String} (b : String)
    (h : ∃ x, a.data = '*' :: x) : ∃ x, (a ++ b).data = '*' :: x := by
  obtain ⟨x, hx⟩ := h
  exact ⟨x ++ b.data, by rw [strData_append, hx]; rfl⟩

theorem parentLinkOf_shape (p : Ancestor) (rest : List Ancestor) (lh : String → String) :
    ∃ x, (parentLinkOf (p :: rest) lh).data = '*' :: x := by
  simp only [parentLinkOf]
  apply data_head_star
  apply data_head_star
  apply data_head_star
  apply data_head_star
  apply data_head_star
  apply data_head_star
  exact ⟨(" [" : String).data, by decide⟩

theorem childLinkLine_shape (name : String) (lh : String → String) (c : ChildInfo) :
    ∃ x, (childLinkLine name lh c).data = '*' :: x := by
  simp only [childLinkLine]
  apply data_head_star
  apply data_head_star
  apply data_head_star
  apply data_head_star
  apply data_head_star
  apply data_head_star
  exact ⟨(" [" : String).data, by decide⟩

theorem childrenLinksOf_shape {name : String} {children : List ChildInfo}
    {lh : String → String} {s : String} (h : s ∈ childrenLinksOf name children lh) :
    ∃ x, s.data = '*' :: x := by
  simp only [childrenLinksOf, List.mem_map] at h
  obtain ⟨c, _, rfl⟩ := h
  exact childLinkLine_shape name lh c

theorem count_footer_renderFixedSegs {today : String} (hnl : '\n' ∉ today.data)
    {t : CmdTemplate} {runnable suppressed : Bool}
    (hpl : t.parentLink = ("") ∨ ∃ x, t.parentLink.data = '*' :: x)
    (hcl : ∀ s ∈ t.childrenLinks, ∃ x, s.data = '*' :: x) :
    (renderFixedSegs t runnable suppressed today).count (footerLine today)
      = if suppressed then 0 else 1 := by
  rw [renderFixedSegs, List.count_append]
  rw [List.count_eq_zero.mpr (footer_notin_renderFixedBody hnl hpl hcl)]
  cases suppressed <;> simp

theorem parentLink_shape_of_fields {ctx : CmdCtx} {lh : String → String} {t : CmdTemplate}
    (hg : generateCmdTemplate ctx lh = some t) :
    t.parentLink = ("") ∨ ∃ x, t.parentLink.data = '*' :: x := by
  have hpl := (generateCmdTemplate_fields hg).1
  cases hanc : ctx.ancestors with
  | nil => left; rw [hpl, hanc]; rfl
  | cons p rest => right; rw [hpl, hanc]; exact parentLinkOf_shape p rest lh

theorem childrenLinks_shape_of_fields {ctx : CmdCtx} {lh : String → String} {t : CmdTemplate}
    (hg : generateCmdTemplate ctx lh = some t) :
    ∀ s ∈ t.childrenLinks, ∃ x, s.data = '*' :: x := by
  intro s hs
  rw [(generateCmdTemplate_fields hg).2.1] at hs
  exact childrenLinksOf_shape hs

/-- C3: fixed-layout rendering emits exactly the spec's section sequence —
heading with the full-path name, short description, Synopsis heading plus
long description, a fenced usage block only if the node is runnable with a
non-empty use line, a fenced example block only if the example is
non-empty, the own-flags and inherited-flags blocks only if non-empty, a
SEE ALSO section (parent link then every child link) only if one of them
is non-empty, and the trailing footer only if the auto-gen tag is not
suppressed for this node (its own flag or an ancestor's). -/
theorem genMarkdownCustom_section_order :
    ∀ (ctx : CmdCtx) (lh : String → String) (today : String),
      GenMarkdownCustom ctx lh today =
        (generateCmdTemplate ctx lh).map
          (fun t => (renderFixedSegs t ctx.node.runnable (effectiveTag ctx) today,
                     effectiveTag ctx)) :=
  genMarkdownCustom_eq

/-- C2, amended: the number of footer lines in the fixed-layout output is
0 when the suppression is effective for the node — its own flag or any
ancestor's flag — and 1 otherwise (for any date string without a newline,
as produced by the source's date format).  The original claim conditioned
only on the node's own flag. -/
theorem footer_count_matches_effective_suppression :
    ∀ (ctx : CmdCtx) (lh : String → String) (today : String),
      '\n' ∉ today.data →
      (GenMarkdownCustom ctx lh today).map (fun p => p.1.count (footerLine today)) =
        (generateCmdTemplate ctx lh).map (fun _ => if effectiveTag ctx then 0 else 1) := by
  intro ctx lh today hnl
  rw [genMarkdownCustom_eq]
  cases hg : generateCmdTemplate ctx lh with
  | none => rfl
  | some t =>
    simp only [Option.map]
    congr 1
    exact count_footer_renderFixedSegs hnl (parentLink_shape_of_fields hg)
      (childrenLinks_shape_of_fields hg)

theorem footer_count_matches_effective_suppression_witness :
    ('\n' ∉ ("11-Oct-2026" : String).data) ∧
    (GenMarkdownCustom ctxW (fun s => s) ("11-Oct-2026")).map
        (fun p => p.1.count (footerLine ("11-Oct-2026"))) =
      (generateCmdTemplate ctxW (fun s => s)).map
        (fun _ => if effectiveTag ctxW then 0 else 1) :=
  ⟨by decide,
   footer_count_matches_effective_suppression ctxW (fun s => s) ("11-Oct-2026") (by decide)⟩

/-- C2, counterexample: a node whose own auto-gen tag is NOT suppressed
but whose parent's is renders with zero footer lines, while the claim as
stated demands exactly one. -/
theorem footer_missing_despite_node_unsuppressed :
    ctxSuppressedParent.node.disableAutoGenTag = false ∧
    (GenMarkdownCustom ctxSuppressedParent (fun s => s) ("11-Oct-2026")).map
        (fun p => p.1.count (footerLine ("11-Oct-2026"))) = some 0 := by
  constructor
  · rfl
  · decide

/-- C4: in template mode the auto-gen tag is always suppressed — the
command's flag ends up true for every template and every initial flag
value, the writer receives exactly the template engine's output, and the
date-stamped footer is never appended after template execution. -/
theorem templateMode_never_appends_footer :
    ∀ (ctx : CmdCtx) (lh : String → String) (tpl : CmdTemplate → TemplateResult)
      (today : String) (r : TplRender),
      GenMarkdownCustomTemplate ctx lh tpl today = some r →
      r.tag = true ∧
      (generateCmdTemplate ctx lh).map (fun t => [(tpl t).out]) = some r.segs := by
  intro ctx lh tpl today r h
  simp only [GenMarkdownCustomTemplate] at h
  cases hg : generateCmdTemplate ctx lh with
  | none => rw [hg] at h; exact absurd h (by simp)
  | some t =>
    rw [hg] at h
    have hr := Option.some.inj h
    subst hr
    exact ⟨rfl, rfl⟩

theorem templateMode_never_appends_footer_witness :
    (({ segs := [("TPL")], logs := [], tag := true, err := none } : TplRender).tag = true) ∧
    (generateCmdTemplate ctxW (fun s => s)).map
        (fun t => [((fun _ => ({ out := ("TPL"), err := none } : TemplateResult)) t).out])
      = some ({ segs := [("TPL")], logs := [], tag := true, err := none } : TplRender).segs :=
  templateMode_never_appends_footer ctxW (fun s => s)
    (fun _ => ({ out := ("TPL"), err := none } : TemplateResult)) ("11-Oct-2026")
    ({ segs := [("TPL")], logs := [], tag := true, err := none }) (by decide)

/-- C5: a failing template execution is logged and swallowed — the
returned error is nil, the log records the engine's error, and the output
is exactly the (partial) text the engine produced before failing. -/
theorem template_error_swallowed :
    ∀ (ctx : CmdCtx) (lh : String → String) (tpl : CmdTemplate → TemplateResult)
      (today : String) (r : TplRender) (t : CmdTemplate) (e : String),
      generateCmdTemplate ctx lh = some t →
      (tpl t).err = some e →
      GenMarkdownCustomTemplate ctx lh tpl today = some r →
      r.err = none ∧ r.segs = [(tpl t).out] ∧ r.logs = ["executing template: " ++ e] := by
  intro ctx lh tpl today r t e hg herr h
  simp only [GenMarkdownCustomTemplate, hg] at h
  have hr := Option.some.inj h
  subst hr
  refine ⟨rfl, rfl, ?_⟩
  simp only [writeToTemplate, herr]

theorem template_error_swallowed_witness :
    rFailW.err = none ∧ rFailW.segs = [(tplFailW tW).out] ∧
      rFailW.logs = ["executing template: " ++ ("boom")] :=
  template_error_swallowed ctxW (fun s => s) tplFailW ("11-Oct-2026") rFailW tW ("boom")
    (by decide) (by decide) (by decide)

theorem foldl_inc (l : List Ancestor) (a : Nat) :
    l.foldl (fun h _ => h + 1) a = a + l.length := by
  induction l generalizing a with
  | nil => simp
  | cons x xs ih => simp only [List.foldl_cons, List.length_cons, ih]; omega

/-- C9: `headerScale` equals the node's depth — the number of its
ancestors: 0 for the root, 1 for a direct child of the root, one more per
further generation — and is 0 only for the root. -/
theorem headerScale_eq_depth :
    ∀ (ctx : CmdCtx) (lh : String → String) (k : Nat),
      (generateCmdTemplate ctx lh).map (fun t => t.headerScale) = some k →
      k = ctx.ancestors.length ∧ (k = 0 ↔ ctx.ancestors = []) := by
  intro ctx lh k h
  cases hg : generateCmdTemplate ctx lh with
  | none => rw [hg] at h; exact absurd h (by simp)
  | some t =>
    rw [hg] at h
    simp only [Option.map] at h
    have hk := Option.some.inj h
    subst hk
    rw [(generateCmdTemplate_fields hg).2.2.1]
    constructor
    · cases ctx.ancestors with
      | nil => rfl
      | cons a rest =>
        simp only [headerScaleOf, List.length_cons, foldl_inc]
        omega
    · cases ctx.ancestors with
      | nil => simp [headerScaleOf]
      | cons a rest =>
        simp only [headerScaleOf, foldl_inc]
        constructor
        · intro hzero; omega
        · intro hcontra; exact absurd hcontra (by simp)

theorem headerScale_eq_depth_witness :
    2 = ctxDepth2.ancestors.length ∧ (2 = 0 ↔ ctxDepth2.ancestors = []) :=
  headerScale_eq_depth ctxDepth2 (fun s => s) 2 (by decide)

theorem splitGoAux_ne_nil : ∀ (fuel b : Nat) (acc l : List Char),
    splitGoAux fuel b acc l ≠ [] := by
  intro fuel
  induction fuel with
  | zero => intro b acc l; cases l <;> simp [splitGoAux]
  | succ f ih =>
    intro b acc l
    cases l with
    | nil => simp [splitGoAux]
    | cons c rest =>
      simp only [splitGoAux]
      split
      · cases b with
        | zero =>
          cases htd : trySpacesDash rest with
          | none => exact ih _ _ _
          | some rest' => exact ih _ _ _
        | succ b' =>
          cases htd : trySpacesDash rest with
          | none => simp only [htd]; exact ih _ _ _
          | some rest' => simp only [htd]; simp
      · exact ih _ _ _

theorem flagSliceOfText_isSome {s : List Char} (h : 1 ≤ countDashDash s) :
    (flagSliceOfText s).isSome = true := by
  unfold flagSliceOfText
  have hne : goSplitFlag s (countDashDash s) ≠ [] := by
    unfold goSplitFlag
    split
    · omega
    · split
      · simp
      · exact splitGoAux_ne_nil _ _ _ _
  cases hl : (goSplitFlag s (countDashDash s)).getLast? with
  | none =>
    have hs : (goSplitFlag s (countDashDash s)).getLast?.isSome = true :=
      List.getLast?_isSome.mpr hne
    rw [hl] at hs
    simp at hs
  | some last => simp [hl]

/-- C1, amended: the `flagSlice` derivation tolerates any own-flags text
containing at least one long-flag marker `--` (any such shape yields some
possibly degenerate split, never a fault), but on a text with no `--` —
the empty text included — the bounded split returns zero pieces and the
final-piece inspection faults (index out of range) instead of silently
degenerating.  The original claim asserted fault-freedom for every
shape. -/
theorem flagSlice_total_on_marker_text :
    ∀ (ctx : CmdCtx) (lh : String → String),
      1 ≤ countDashDash ctx.node.flagsText.data →
      (generateCmdTemplate ctx lh).isSome = true := by
  intro ctx lh hc
  simp only [generateCmdTemplate]
  cases hf : flagSliceOfText ctx.node.flagsText.data with
  | none =>
    have hs := flagSliceOfText_isSome hc
    rw [hf] at hs
    simp at hs
  | some ps => rfl

theorem flagSlice_total_on_marker_text_witness :
    1 ≤ countDashDash ctxW.node.flagsText.data ∧
    (generateCmdTemplate ctxW (fun s => s)).isSome = true :=
  ⟨by decide, flagSlice_total_on_marker_text ctxW (fun s => s) (by decide)⟩

/-- C1, counterexample: on a node whose formatted own-flags text contains
no `--` at all, model extraction faults (the split yields no pieces and
`flagSlice[len(flagSlice)-1]` indexes an empty slice) — it does not
silently produce a degenerate split. -/
theorem flagSlice_faults_on_markerless_text :
    generateCmdTemplate ctxNoMarker (fun s => s) = none := by decide

theorem insertByName_perm (c : ChildInfo) (l : List ChildInfo) :
    (insertByName c l).Perm (c :: l) := by
  induction l with
  | nil => exact List.Perm.refl _
  | cons d rest ih =>
    simp only [insertByName]
    split
    · exact List.Perm.refl _
    · exact (List.Perm.cons d ih).trans (List.Perm.swap c d rest)

theorem sortByName_perm (l : List ChildInfo) : (sortByName l).Perm l := by
  induction l with
  | nil => exact List.Perm.refl _
  | cons c rest ih =>
    exact (insertByName_perm c (sortByName rest)).trans (List.Perm.cons c ih)

theorem nameLe_total (a b : ChildInfo) : nameLe a b = true ∨ nameLe b a = true := by
  simp only [nameLe, decide_eq_true_eq]
  exact le_total a.name b.name

theorem nameLe_trans {a b c : ChildInfo} (h1 : nameLe a b = true) (h2 : nameLe b c = true) :
    nameLe a c = true := by
  simp only [nameLe, decide_eq_true_eq] at *
  exact le_trans h1 h2

theorem insertByName_sorted {c : ChildInfo} {l : List ChildInfo}
    (h : List.Pairwise (fun a b => nameLe a b = true) l) :
    List.Pairwise (fun a b => nameLe a b = true) (insertByName c l) := by
  induction l with
  | nil => simp [insertByName]
  | cons d rest ih =>
    obtain ⟨hd, hrest⟩ := List.pairwise_cons.mp h
    simp only [insertByName]
    split
    case isTrue hcd =>
      refine List.pairwise_cons.mpr ⟨?_, h⟩
      intro x hx
      rcases List.mem_cons.mp hx with rfl | hxr
      · exact hcd
      · exact nameLe_trans hcd (hd x hxr)
    case isFalse hcd =>
      have hdc : nameLe d c = true := by
        rcases nameLe_total c d with hc | hc
        · exact absurd hc hcd
        · exact hc
      refine List.pairwise_cons.mpr ⟨?_, ih hrest⟩
      intro x hx
      rcases List.mem_cons.mp ((insertByName_perm c rest).mem_iff.mp hx) with rfl | hxr
      · exact hdc
      · exact hd x hxr

theorem sortByName_sorted (l : List ChildInfo) :
    List.Pairwise (fun a b => nameLe a b = true) (sortByName l) := by
  induction l with
  | nil => simp [sortByName]
  | cons c rest ih => exact insertByName_sorted ih

theorem initHelp_tag (st : CmdMutState) :
    (initDefaultHelpFlag (initDefaultHelpCmd st)).disableAutoGenTag
      = st.disableAutoGenTag := by
  unfold initDefaultHelpFlag initDefaultHelpCmd
  split_ifs <;> rfl

theorem initHelpFlag_children (st : CmdMutState) :
    (initDefaultHelpFlag st).children = st.children := by
  unfold initDefaultHelpFlag
  split_ifs <;> rfl

theorem initHelp_flagDefined (st : CmdMutState) :
    (initDefaultHelpFlag (initDefaultHelpCmd st)).helpFlagDefined = true := by
  unfold initDefaultHelpFlag
  split_ifs with h
  · exact h
  · rfl

theorem initHelp_added (st : CmdMutState) :
    (initDefaultHelpFlag (initDefaultHelpCmd st)).helpCommandAdded
      = (if st.children = [] then st.helpCommandAdded else true) := by
  unfold initDefaultHelpFlag initDefaultHelpCmd
  split_ifs <;> simp_all

/-- C10, counterexample: rendering a node with two name-unsorted children,
no help flag and no suppressed ancestor leaves the suppression flag
unchanged yet changes other fields of the input command — the children
slice is reordered (and gains the default help subcommand) and the help
flag is defined — so "leaves every field of the input command unchanged
except DisableAutoGenTag" is false. -/
theorem render_mutates_more_than_autogen_tag :
    (genMarkdownCustomState stPlain []).disableAutoGenTag = stPlain.disableAutoGenTag ∧
    (genMarkdownCustomState stPlain []).children ≠ stPlain.children ∧
    (genMarkdownCustomState stPlain []).helpFlagDefined ≠ stPlain.helpFlagDefined ∧
    (genMarkdownCustomState stPlain []).helpCommandAdded ≠ stPlain.helpCommandAdded := by
  refine ⟨by decide, ?_, by decide, by decide⟩
  intro h
  have hlen := congrArg List.length h
  have hp : ((genMarkdownCustomState stPlain []).children).Perm
      ((initDefaultHelpCmd stPlain).children) := by
    show (sortByName ((initDefaultHelpFlag (initDefaultHelpCmd stPlain)).children)).Perm _
    rw [initHelpFlag_children]
    exact sortByName_perm _
  rw [hp.length_eq] at hlen
  have h3 : (initDefaultHelpCmd stPlain).children.length = 3 := by decide
  have h2 : stPlain.children.length = 2 := by decide
  rw [h3, h2] at hlen
  exact absurd hlen (by decide)

/-- C10, amended: rendering mutates the input command's suppression flag
as the claim says — after `GenMarkdownCustom` it equals its old value OR
any ancestor's flag (set to true exactly when some ancestor's flag is
set), and `GenMarkdownCustomTemplate` unconditionally sets it true for
every template and every initial value — but not only that flag: both
renderers also run the default-help initializations, which define the
`--help` flag when absent and append the default help subcommand when the
node has children and none was added yet, and the extraction's
`sort.Sort` reorders the command's live children slice into by-name
order; all of these mutations persist after the call, affecting
subsequent renders of the same node. -/
theorem render_mutation_footprint :
    (∀ (ctx : CmdCtx) (lh : String → String) (today : String) (tag : Bool),
        (GenMarkdownCustom ctx lh today).map (fun p => p.2) = some tag →
        tag = (ctx.node.disableAutoGenTag || ctx.ancestors.any (·.disableAutoGenTag)))
    ∧ (∀ (ctx : CmdCtx) (lh : String → String) (tpl : CmdTemplate → TemplateResult)
        (today : String) (tg : Bool),
        (GenMarkdownCustomTemplate ctx lh tpl today).map (fun r => r.tag) = some tg →
        tg = true)
    ∧ (∀ (st : CmdMutState) (anc : List Ancestor),
        (genMarkdownCustomState st anc).disableAutoGenTag
          = (st.disableAutoGenTag || anc.any (·.disableAutoGenTag)) ∧
        (genMarkdownCustomState st anc).helpFlagDefined = true ∧
        (genMarkdownCustomState st anc).helpCommandAdded
          = (if st.children = [] then st.helpCommandAdded else true) ∧
        ((genMarkdownCustomState st anc).children).Perm ((initDefaultHelpCmd st).children) ∧
        List.Pairwise (fun a b : ChildInfo => a.name ≤ b.name)
          ((genMarkdownCustomState st anc).children))
    ∧ (∀ (st : CmdMutState),
        (genMarkdownCustomTemplateState st).disableAutoGenTag = true ∧
        (genMarkdownCustomTemplateState st).helpFlagDefined = true ∧
        (genMarkdownCustomTemplateState st).helpCommandAdded
          = (if st.children = [] then st.helpCommandAdded else true) ∧
        ((genMarkdownCustomTemplateState st).children).Perm ((initDefaultHelpCmd st).children) ∧
        List.Pairwise (fun a b : ChildInfo => a.name ≤ b.name)
          ((genMarkdownCustomTemplateState st).children)) := by
  refine ⟨?_, ?_, ?_, ?_⟩
  · intro ctx lh today tag h
    rw [genMarkdownCustom_eq] at h
    cases hg : generateCmdTemplate ctx lh with
    | none => rw [hg] at h; exact absurd h (by simp)
    | some t =>
      rw [hg] at h
      simp only [Option.map] at h
      exact (Option.some.inj h).symm
  · intro ctx lh tpl today tg h
    simp only [GenMarkdownCustomTemplate] at h
    cases hg : generateCmdTemplate ctx lh with
    | none => rw [hg] at h; exact absurd h (by simp)
    | some t =>
      rw [hg] at h
      simp only [Option.map] at h
      exact (Option.some.inj h).symm
  · intro st anc
    refine ⟨?_, ?_, ?_, ?_, ?_⟩
    · show visitParentsTag anc
          (initDefaultHelpFlag (initDefaultHelpCmd st)).disableAutoGenTag = _
      rw [initHelp_tag, visitParentsTag_eq]
    · exact initHelp_flagDefined st
    · exact initHelp_added st
    · show (sortByName ((initDefaultHelpFlag (initDefaultHelpCmd st)).children)).Perm _
      rw [initHelpFlag_children]
      exact sortByName_perm _
    · show List.Pairwise _
        (sortByName ((initDefaultHelpFlag (initDefaultHelpCmd st)).children))
      exact (sortByName_sorted _).imp (fun hab => by simpa [nameLe] using hab)
  · intro st
    refine ⟨rfl, initHelp_flagDefined st, initHelp_added st, ?_, ?_⟩
    · show (sortByName ((initDefaultHelpFlag (initDefaultHelpCmd st)).children)).Perm _
      rw [initHelpFlag_children]
      exact sortByName_perm _
    · show List.Pairwise _
        (sortByName ((initDefaultHelpFlag (initDefaultHelpCmd st)).children))
      exact (sortByName_sorted _).imp (fun hab => by simpa [nameLe] using hab)

theorem render_mutation_footprint_witness :
    (false = (ctxW.node.disableAutoGenTag || ctxW.ancestors.any (·.disableAutoGenTag)))
    ∧ (true = true) :=
  ⟨render_mutation_footprint.1 ctxW (fun s => s) ("11-Oct-2026") false (by decide),
   render_mutation_footprint.2.1 ctxW (fun s => s) tplFailW ("11-Oct-2026") true (by decide)⟩

/-- C8: the children links are exactly one rendered line per child that is
an available command and not an additional help topic (children that are
hidden, unavailable or help-topic placeholders — all of which make
`IsAvailableCommand`/`IsAdditionalHelpTopicCommand` filter them out —
contribute none), taken in lexicographic order of child name. -/
theorem childrenLinks_one_per_visible_child :
    ∀ (name : String) (children : List ChildInfo) (lh : String → String),
      childrenLinksOf name children lh =
        ((sortByName children).filter fun c => c.available && !c.helpTopic).map
          (childLinkLine name lh) ∧
      (childrenLinksOf name children lh).length =
        (children.filter fun c => c.available && !c.helpTopic).length ∧
      List.Pairwise (fun a b : ChildInfo => a.name ≤ b.name)
        ((sortByName children).filter fun c => c.available && !c.helpTopic) := by
  intro name children lh
  refine ⟨rfl, ?_, ?_⟩
  · rw [childrenLinksOf, List.length_map]
    exact ((sortByName_perm children).filter _).length_eq
  · have hs := sortByName_sorted children
    have hsub : ((sortByName children).filter fun c => c.available && !c.helpTopic).Sublist
        (sortByName children) := List.filter_sublist _
    have hp := List.Pairwise.sublist hsub hs
    exact hp.imp (fun hab => by simpa [nameLe] using hab)

theorem cdd_cons_of_ne {c : Char} (hc : c ≠ '-') (l : List Char) :
    countDashDash (c :: l) = countDashDash l := by
  cases l with
  | nil => simp [countDashDash, hc]
  | cons d rest => simp [countDashDash, hc]

theorem cdd_append {xs : List Char} (hlast : xs.getLast? ≠ some '-') (ys : List Char) :
    countDashDash (xs ++ ys) = countDashDash xs + countDashDash ys := by
  induction xs using countDashDash.induct with
  | case1 => simp [countDashDash]
  | case2 => exact absurd (by decide) hlast
  | case3 rest' ih =>
    have hl : rest'.getLast? ≠ some '-' := by
      cases rest' with
      | nil => exact absurd (by decide) hlast
      | cons x xs2 =>
        rw [List.getLast?_cons_cons, List.getLast?_cons_cons] at hlast
        exact hlast
    show countDashDash ('-' :: '-' :: (rest' ++ ys)) = _
    simp [countDashDash, ih hl]
    omega
  | case4 d rest' hd ih =>
    have hl : (d :: rest').getLast? ≠ some '-' := by
      rw [List.getLast?_cons_cons] at hlast
      exact hlast
    show countDashDash ('-' :: d :: (rest' ++ ys)) = _
    simp [countDashDash, hd]
    exact ih hl
  | case5 d rest' hd ih =>
    have hl : rest'.getLast? ≠ some '-' := by
      cases rest' with
      | nil => simp
      | cons x xs2 =>
        rw [List.getLast?_cons_cons] at hlast
        exact hlast
    show countDashDash (d :: (rest' ++ ys)) = _
    rw [cdd_cons_of_ne hd, cdd_cons_of_ne hd, ih hl]

theorem entry_getLast_nl {e : List Char} (he : IsFlagEntryP e) :
    e.getLast? = some '\n' := by
  obtain ⟨ind, midE, rfl, _, _, _⟩ := he
  have : ind ++ '-' :: (midE ++ ['\n']) = (ind ++ '-' :: midE) ++ ['\n'] := by simp
  rw [this, List.getLast?_concat]

theorem cdd_join {es : List (List Char)}
    (hes : ∀ e ∈ es, IsFlagEntryP e)
    (hcnt : ∀ e ∈ es, countDashDash e = 1) :
    countDashDash es.flatten = es.length := by
  induction es with
  | nil => simp [countDashDash]
  | cons e rest ih =>
    have hlast : e.getLast? ≠ some '-' := by
      rw [entry_getLast_nl (hes e (List.mem_cons_self e rest))]
      simp
    rw [List.flatten_cons, cdd_append hlast,
      hcnt e (List.mem_cons_self e rest),
      ih (fun x hx => hes x (List.mem_cons_of_mem e hx))
        (fun x hx => hcnt x (List.mem_cons_of_mem e hx)),
      List.length_cons]
    omega

theorem trySpacesDash_spec {ind : List Char} (hsp : ∀ c ∈ ind, c = ' ') (r : List Char) :
    trySpacesDash (ind ++ '-' :: r) = some r := by
  induction ind with
  | nil => rfl
  | cons c cs ih =>
    have hc : c = ' ' := hsp c (List.mem_cons_self c cs)
    subst hc
    show trySpacesDash (' ' :: (cs ++ '-' :: r)) = some r
    rw [show trySpacesDash (' ' :: (cs ++ '-' :: r)) = trySpacesDash (cs ++ '-' :: r) from rfl]
    exact ih (fun x hx => hsp x (List.mem_cons_of_mem ' ' hx))

theorem splitGoAux_scan {mid : List Char} (hm : '\n' ∉ mid) :
    ∀ (fuel b : Nat) (acc t : List Char), mid.length + t.length ≤ fuel →
      splitGoAux fuel b acc (mid ++ t) =
        splitGoAux (fuel - mid.length) b (mid.reverse ++ acc) t := by
  induction mid with
  | nil => intro fuel b acc t h; simp
  | cons c cs ih =>
    intro fuel b acc t h
    have hc : c ≠ '\n' := fun hh => hm (hh ▸ List.mem_cons_self c cs)
    cases fuel with
    | zero => simp at h
    | succ f =>
      have h1 : splitGoAux (f + 1) b acc (c :: (cs ++ t)) =
          splitGoAux f b (c :: acc) (cs ++ t) := by
        simp [splitGoAux, hc]
      rw [List.cons_append, h1,
        ih (fun hh => hm (List.mem_cons_of_mem c hh)) f b (c :: acc) t
          (by simp at h; omega)]
      simp [Nat.succ_sub_succ]

theorem getLast?_cons_of_ne_nil {α : Type} {l : List α} (h : l ≠ []) (x : α) :
    (x :: l).getLast? = l.getLast? := by
  cases l with
  | nil => exact absurd rfl h
  | cons y ys => exact List.getLast?_cons_cons

theorem splitGoAux_entries :
    ∀ (es : List (List Char)), (∀ e ∈ es, IsFlagEntryP e) →
    ∀ (mid : List Char), '\n' ∉ mid →
    ∀ (b : Nat), es.length ≤ b →
    ∀ (fuel : Nat), mid.length + 1 + es.flatten.length ≤ fuel →
    ∀ (acc : List Char),
      (splitGoAux fuel b acc (mid ++ '\n' :: es.flatten)).length = es.length + 1 ∧
      (splitGoAux fuel b acc (mid ++ '\n' :: es.flatten)).getLast? ≠ some [] := by
  intro es
  induction es with
  | nil =>
    intro _ mid hm b _ fuel hf acc
    have hflat : (([] : List (List Char)).flatten) = [] := rfl
    rw [hflat]
    have hlen : mid.length + (['\n'] : List Char).length ≤ fuel := by
      simp only [List.length_singleton]
      simpa using hf
    rw [splitGoAux_scan hm fuel b acc ['\n'] hlen]
    obtain ⟨f, hf2⟩ : ∃ f, fuel - mid.length = f + 1 :=
      ⟨fuel - mid.length - 1, by simp at hf; omega⟩
    rw [hf2]
    have ht : trySpacesDash [] = none := rfl
    cases b with
    | zero => constructor <;> simp [splitGoAux, ht]
    | succ b' => constructor <;> simp [splitGoAux, ht]
  | cons e rest ih =>
    intro hes mid hm b hb fuel hf acc
    obtain ⟨ind, midE, he, hind, hsp, hmidE⟩ := hes e (List.mem_cons_self e rest)
    have hshape : (e :: rest).flatten = ind ++ '-' :: (midE ++ '\n' :: rest.flatten) := by
      rw [List.flatten_cons, he]; simp
    have hlenX : (e :: rest).flatten.length =
        ind.length + 1 + midE.length + 1 + rest.flatten.length := by
      rw [hshape]; simp; omega
    rw [hshape]
    have hscan : mid.length +
        ('\n' :: (ind ++ '-' :: (midE ++ '\n' :: rest.flatten))).length ≤ fuel := by
      have := hf
      rw [hlenX] at this
      simp only [List.length_cons, List.length_append, List.length_cons]
      omega
    rw [splitGoAux_scan hm fuel b acc _ hscan]
    obtain ⟨f, hf2⟩ : ∃ f, fuel - mid.length = f + 1 := by
      refine ⟨fuel - mid.length - 1, ?_⟩
      have := hf
      rw [hlenX] at this
      omega
    obtain ⟨b', hb2⟩ : ∃ b', b = b' + 1 := by
      refine ⟨b - 1, ?_⟩
      simp only [List.length_cons] at hb
      omega
    rw [hf2, hb2]
    have hts := trySpacesDash_spec hsp (midE ++ '\n' :: rest.flatten)
    have hstep : splitGoAux (f + 1) (b' + 1) (mid.reverse ++ acc)
        ('\n' :: (ind ++ '-' :: (midE ++ '\n' :: rest.flatten)))
        = (mid.reverse ++ acc).reverse :: splitGoAux f b' [] (midE ++ '\n' :: rest.flatten) := by
      simp [splitGoAux, hts]
    rw [hstep]
    have hfr : midE.length + 1 + rest.flatten.length ≤ f := by
      have := hf
      rw [hlenX] at this
      omega
    have hbr : rest.length ≤ b' := by
      simp only [List.length_cons] at hb
      omega
    have hrec := ih (fun x hx => hes x (List.mem_cons_of_mem e hx)) midE hmidE b' hbr f hfr []
    constructor
    · rw [List.length_cons, hrec.1]
      simp
    · have htl : splitGoAux f b' [] (midE ++ '\n' :: rest.flatten) ≠ [] :=
        splitGoAux_ne_nil _ _ _ _
      rw [getLast?_cons_of_ne_nil htl]
      exact hrec.2

theorem reAddDash_length (l : List (List Char)) : (reAddDash l).length = l.length := by
  cases l <;> simp [reAddDash]

theorem flagSliceOfText_entry_count {es : List (List Char)}
    (hes : ∀ e ∈ es, IsFlagEntryP e)
    (hcnt : ∀ e ∈ es, countDashDash e = 1)
    (hne : es ≠ []) :
    ∃ sl, flagSliceOfText es.flatten = some sl ∧ sl.length = es.length := by
  obtain ⟨e, rest, rfl⟩ : ∃ e rest, es = e :: rest := by
    cases es with
    | nil => exact absurd rfl hne
    | cons a b => exact ⟨a, b, rfl⟩
  obtain ⟨ind, midE, he, hind, hsp, hmidE⟩ := hes e (List.mem_cons_self e rest)
  have hn : countDashDash (e :: rest).flatten = rest.length + 1 := by
    rw [cdd_join hes hcnt]; simp
  have hshape : (e :: rest).flatten = (ind ++ '-' :: midE) ++ '\n' :: rest.flatten := by
    rw [List.flatten_cons, he]; simp
  have hmid0 : '\n' ∉ (ind ++ '-' :: midE) := by
    intro hx
    rcases List.mem_append.mp hx with hx | hx
    · exact absurd (hsp '\n' hx) (by decide)
    · rcases List.mem_cons.mp hx with hx | hx
      · exact absurd hx (by decide)
      · exact hmidE hx
  have hflne : ((ind ++ '-' :: midE) ++ '\n' :: rest.flatten) ≠ [] := by simp
  have hn2 : countDashDash ((ind ++ '-' :: midE) ++ '\n' :: rest.flatten) = rest.length + 1 := by
    rw [← hshape]; exact hn
  simp only [flagSliceOfText, goSplitFlag, hshape, hn2]
  rw [if_neg (by omega : ¬ (rest.length + 1 = 0)), if_neg hflne]
  have harith : rest.length + 1 - 1 = rest.length := rfl
  rw [harith]
  have hfuel : (ind ++ '-' :: midE).length + 1 + rest.flatten.length ≤
      ((ind ++ '-' :: midE) ++ '\n' :: rest.flatten).length := by
    simp
    omega
  have hmain := splitGoAux_entries rest
    (fun x hx => hes x (List.mem_cons_of_mem e hx))
    (ind ++ '-' :: midE) hmid0 rest.length le_rfl
    (((ind ++ '-' :: midE) ++ '\n' :: rest.flatten).length) hfuel []
  obtain ⟨hlen, hlast⟩ := hmain
  have hne2 : splitGoAux ((ind ++ '-' :: midE) ++ '\n' :: rest.flatten).length rest.length []
      ((ind ++ '-' :: midE) ++ '\n' :: rest.flatten) ≠ [] := splitGoAux_ne_nil _ _ _ _
  obtain ⟨last, hl⟩ := Option.isSome_iff_exists.mp (List.getLast?_isSome.mpr hne2)
  have hlne : last ≠ [] := by
    intro hcon
    rw [hcon] at hl
    exact hlast hl
  rw [hl]
  simp only [hlne, if_false]
  refine ⟨_, rfl, ?_⟩
  rw [reAddDash_length, hlen]
  simp

theorem isFlagEntryB_spec {e : List Char} (h : isFlagEntryB e = true) :
    IsFlagEntryP e ∧ countDashDash e = 1 := by
  simp only [isFlagEntryB, Bool.and_eq_true, decide_eq_true_eq] at h
  obtain ⟨⟨hind, hmatch⟩, hcnt⟩ := h
  refine ⟨?_, hcnt⟩
  cases hrest : e.dropWhile (fun c => decide (c = ' ')) with
  | nil => rw [hrest] at hmatch; simp at hmatch
  | cons c tail =>
    rw [hrest] at hmatch
    simp only [Bool.and_eq_true, decide_eq_true_eq] at hmatch
    obtain ⟨hc, htail⟩ := hmatch
    subst hc
    cases hgl : tail.getLast? with
    | none => rw [hgl] at htail; simp at htail
    | some d =>
      rw [hgl] at htail
      simp only [Bool.and_eq_true, decide_eq_true_eq] at htail
      obtain ⟨hd, hnl⟩ := htail
      subst hd
      have htne : tail ≠ [] := by
        intro hcon
        rw [hcon] at hgl
        simp at hgl
      have htl : tail = tail.dropLast ++ ['\n'] := by
        have hx := List.dropLast_append_getLast htne
        rw [List.getLast?_eq_getLast _ htne] at hgl
        rw [Option.some.inj hgl] at hx
        exact hx.symm
      refine ⟨e.takeWhile (fun c => decide (c = ' ')), tail.dropLast, ?_, ?_, ?_, hnl⟩
      · conv_lhs => rw [← List.takeWhile_append_dropWhile (fun c => decide (c = ' ')) e]
        rw [hrest, ← htl]
      · exact hind
      · intro c hc
        have := List.mem_takeWhile_imp hc
        simpa using this

/-- C6, amended: the `flagSlice` derivation is the count-bounded split on
`"\n *-"` boundaries with the dash re-prefixing and trailing-empty drop
(this is `flagSliceOfText`, used verbatim by `generateCmdTemplate`), and
for own-flags text in the printer's fixed column format with k ≥ 1 flags
— k entries, each an indented single-line flag definition with exactly
one `--` — `flagSlice` has exactly k entries.  With k = 0 the text is
empty and the derivation faults instead of producing zero entries. -/
theorem flagSlice_one_entry_per_flag :
    ∀ (ctx : CmdCtx) (lh : String → String) (es : List (List Char)),
      (∀ e ∈ es, isFlagEntryB e = true) →
      es ≠ [] →
      ctx.node.flagsText.data = es.flatten →
      (generateCmdTemplate ctx lh).map (fun t => t.flagSlice.length) = some es.length := by
  intro ctx lh es hes hne hdata
  obtain ⟨sl, hsl, hlen⟩ := flagSliceOfText_entry_count
    (fun e he => (isFlagEntryB_spec (hes e he)).1)
    (fun e he => (isFlagEntryB_spec (hes e he)).2) hne
  simp only [generateCmdTemplate, hdata, hsl, Option.map]
  simp [hlen]

theorem flagSlice_one_entry_per_flag_witness :
    (generateCmdTemplate ctxTwoFlags (fun s => s)).map (fun t => t.flagSlice.length)
      = some (([entryBool, entryHelp] : List (List Char)).length) :=
  flagSlice_one_entry_per_flag ctxTwoFlags (fun s => s) [entryBool, entryHelp]
    (by decide) (by decide) (by decide)

/-- C6, counterexample: a node with zero available own flags has empty
printed flag text, and the derivation faults (no `flagSlice` value exists)
instead of yielding a slice with zero entries as the claim's "exactly k
entries for k flags" demands at k = 0. -/
theorem flagSlice_zero_flags_faults :
    ctxZeroFlags.node.flagsText = ("") ∧
    generateCmdTemplate ctxZeroFlags (fun s => s) = none := by
  constructor
  · rfl
  · decide

theorem optFold_map_paths {g : CmdTree → Option (List FileWrite)}
    {ge : CmdTree → Option (List String)}
    (hpt : ∀ (c : CmdTree) (ws : List FileWrite),
      g c = some ws → ge c = some (ws.map FileWrite.path)) :
    ∀ (cs : List CmdTree) (ws : List FileWrite),
      optFold g cs = some ws → optFold ge cs = some (ws.map FileWrite.path) := by
  intro cs
  induction cs with
  | nil =>
    intro ws h
    simp only [optFold] at h ⊢
    rw [← Option.some.inj h]
    rfl
  | cons c rest ihl =>
    intro ws h
    simp only [optFold] at h ⊢
    cases hr : optFold g rest with
    | none => rw [hr] at h; simp at h
    | some wsr =>
      rw [hr] at h
      rw [ihl wsr hr]
      by_cases hav : ((CmdTree.info c).available && !(CmdTree.info c).helpTopic) = true
      · cases hg : g c with
        | none => rw [hg] at h; simp [hav] at h
        | some cw =>
          rw [hg] at h
          rw [hpt c cw hg]
          simp only [hav, if_true] at h ⊢
          have h2 : some (cw ++ wsr) = some ws := h
          have h3 : some (cw.map FileWrite.path ++ wsr.map FileWrite.path) =
              some ((cw ++ wsr).map FileWrite.path) := by simp
          rw [h3, Option.some.inj h2]
      · simp only [hav, if_false] at h ⊢
        have h2 : some wsr = some ws := h
        rw [Option.some.inj h2]
        simp

theorem genTreeFuel_paths :
    ∀ (fuel : Nat) (anc : List Ancestor) (dir : String) (fp lh : String → String)
      (today : String) (t : CmdTree) (ws : List FileWrite),
      genTreeFuel fuel anc dir fp lh today t = some ws →
      expectedTreePaths fuel anc dir t = some (ws.map FileWrite.path) := by
  intro fuel
  induction fuel with
  | zero =>
    intro anc dir fp lh today t ws h
    cases t with
    | node d cs => simp [genTreeFuel] at h
  | succ f ih =>
    intro anc dir fp lh today t ws h
    cases t with
    | node d cs =>
      simp only [genTreeFuel] at h
      simp only [expectedTreePaths]
      have hpt : ∀ (c : CmdTree) (ws' : List FileWrite),
          (fun c => genTreeFuel f (ancestorOf d :: anc) dir fp lh today c) c = some ws' →
          (fun c => expectedTreePaths f (ancestorOf d :: anc) dir c) c
            = some (ws'.map FileWrite.path) :=
        fun c ws' hg => ih (ancestorOf d :: anc) dir fp lh today c ws' hg
      cases hfold : optFold (fun c => genTreeFuel f (ancestorOf d :: anc) dir fp lh today c) cs with
      | none => rw [hfold] at h; simp at h
      | some childWs =>
        rw [hfold] at h
        rw [optFold_map_paths hpt cs childWs hfold]
        cases hmd : GenMarkdownCustom (treeCtx anc d cs) lh today with
        | none => rw [hmd] at h; simp at h
        | some r =>
          rw [hmd] at h
          rw [← Option.some.inj h]
          simp

/-- C7, amended: whenever tree materialization completes, it has produced
exactly one file for the root plus one per descendant every step of whose
ancestor chain below the root (itself included) is an available,
non-help-topic command; each file is named by the node's full command
path with spaces replaced by underscores plus `.md`, joined directly to
the target directory, and descendants' files are written before the
node's own (depth-first post-order).  The original claim promised one
file per available non-help-topic node anywhere in the tree, but an
available node under an unavailable (e.g. hidden) parent is skipped with
the whole subtree. -/
theorem treeGen_writes_expected_files :
    ∀ (fuel : Nat) (anc : List Ancestor) (dir : String) (fp lh : String → String)
      (today : String) (t : CmdTree) (ps : List String),
      (genTreeFuel fuel anc dir fp lh today t).map (List.map FileWrite.path) = some ps →
      expectedTreePaths fuel anc dir t = some ps := by
  intro fuel anc dir fp lh today t ps h
  cases hg : genTreeFuel fuel anc dir fp lh today t with
  | none => rw [hg] at h; simp at h
  | some ws =>
    rw [hg] at h
    simp only [Option.map] at h
    rw [genTreeFuel_paths fuel anc dir fp lh today t ws hg]
    rw [Option.some.inj h]

theorem treeGen_writes_expected_files_witness :
    expectedTreePaths 3 [] ("docs") treeDo
      = some [("docs/root_do.md"), ("docs/root.md")] :=
  treeGen_writes_expected_files 3 [] ("docs") (fun _ => "") (fun s => s) ("11-Oct-2026")
    treeDo [("docs/root_do.md"), ("docs/root.md")] (by decide)

/-- C7, counterexample: in a tree whose middle node is unavailable, the
grandchild is an available, non-help-topic command, yet the walk writes
only the root's file — the claim's "exactly one output file per
available, non-help-topic command node" fails for the grandchild. -/
theorem treeGen_skips_subtree_of_unavailable_child :
    leafMeta.available = true ∧ leafMeta.helpTopic = false ∧
    (genTreeFuel 5 [] ("docs") (fun _ => "") (fun s => s) ("11-Oct-2026") treeHiddenMid).map
      (List.map FileWrite.path) = some [("docs/root.md")] := by
  refine ⟨rfl, rfl, ?_⟩
  decide
